import Mathlib

/-!
Verification of the `gopro-video-sync` repository: a shallow embedding of the
box-tree navigator, the sample-table extractor, the telemetry stream extractor
and the stream-alignment engine, with theorems settling the spec's claims.

Conventions of the embedding:
* Python floats are modelled by `ℚ` (all concrete computations used in the
  theorems below are exact in IEEE double precision, so the rational model
  agrees with the float computation at every evaluated input).
* Python `int()` truncation and `round()` (half-to-even) get explicit models.
* The byte source is abstracted at header granularity: an outer MP4 file maps
  a byte offset to the 8-byte header decoded there (4-byte big-endian size,
  4-byte ASCII tag), a GPMF payload maps a byte offset to the decoded 8-byte
  GPMF header.  Decoding of the fixed-width integer fields is not itself the
  subject of any claim.
* The (possibly non-terminating) `while` loops of the navigator are modelled
  with explicit fuel; `none` means the fuel ran out, i.e. the Python loop has
  not finished within that many iterations.
-/

namespace GPSync

/-- Python `int()` applied to a rational value: truncation toward zero. -/
def pyInt (q : ℚ) : ℤ := if 0 ≤ q then ⌊q⌋ else ⌈q⌉

/-- Python `round()` applied to a rational value: round half to even. -/
def pround (q : ℚ) : ℤ :=
  if (q - (⌊q⌋ : ℚ)) < 1/2 then ⌊q⌋
  else if (1/2 : ℚ) < q - (⌊q⌋ : ℚ) then ⌊q⌋ + 1
  else if Even ⌊q⌋ then ⌊q⌋ else ⌊q⌋ + 1

/-- Model of `np.median`: sort ascending, then take the middle element (odd
length) or the mean of the two middle elements (even length). -/
def npMedian (l : List ℚ) : ℚ :=
  let s := List.insertionSort (· ≤ ·) l
  if l.length % 2 = 1 then s.getD (l.length / 2) 0
  else (s.getD (l.length / 2 - 1) 0 + s.getD (l.length / 2) 0) / 2

/-- Model of `scipy.signal.correlate(a, v, mode="valid")` for one-dimensional
real inputs: output index `k` holds the sliding dot product
`sum_j a[k+j] * v[j]`, for `k = 0 .. len(a) - len(v)`. -/
def correlateValid (a v : List ℚ) : List ℚ :=
  (List.range (a.length + 1 - v.length)).map fun k => ((a.drop k).zipWith (· * ·) v).sum

/-- Helper for `argmax`: scan the tail, remembering the best value and the
index where it first occurred. -/
def argmaxGo : List ℚ → ℚ → ℕ → ℕ → ℕ
  | [], _, bi, _ => bi
  | x :: xs, best, bi, i => if best < x then argmaxGo xs x i (i + 1) else argmaxGo xs best bi (i + 1)

/-- Model of `np.argmax`: index of the first occurrence of the maximum. -/
def argmax : List ℚ → ℕ
  | [] => 0
  | x :: xs => argmaxGo xs x 0 1

/-! ### cross_correlation.py -/

/-- Translation of `median_padding = np.full(data_2.size, np.median(data_1))`
in `get_offset` (src/gopro_video_sync/cross_correlation.py). -/
def co_median_padding (data_1 data_2 : List ℚ) : List ℚ :=
  List.replicate data_2.length (npMedian data_1)

/-- Translation of
`data_1_padded = np.concatenate((median_padding, data_1, median_padding))`. -/
def co_data_1_padded (data_1 data_2 : List ℚ) : List ℚ :=
  co_median_padding data_1 data_2 ++ data_1 ++ co_median_padding data_1 data_2

/-- Translation of `get_offset` (src/gopro_video_sync/cross_correlation.py):
median-pad the first array, correlate in valid mode against the second array,
and convert the argmax lag to seconds via
`shift = -1 * (np.argmax(corr) - data_2.size)`, `offset = shift / sample_rate`. -/
def get_offset (data_1 data_2 : List ℚ) (sample_rate : ℚ) : ℚ :=
  let corr := correlateValid (co_data_1_padded data_1 data_2) data_2
  let shift : ℤ := -1 * ((argmax corr : ℤ) - (data_2.length : ℤ))
  (shift : ℚ) / sample_rate

/-! ### Sensor3AxisStream and sensor_offset.py

Modelled from the spec: `sensor_offset.py` imports `Sensor3AxisStream` from
`gopro_video_sync/gopro_accel_gyro.py`, which is not present under `src/`
(only the older standalone script `gopro-video-sync/gopro-accel-gyro.py` is).
Following the spec's SensorStream data model (quantity key, total duration,
total sample count, name, units, ordered 3-tuple data) and the field accesses
`stream.duration` / `stream.sample_count` / `stream.data` / `stream.key` /
`stream.name` / `stream.units` made by `sensor_offset.py`. -/
structure Sensor3AxisStream where
  key : String
  duration : ℤ
  sample_count : ℕ
  name : String
  units : String
  data : List (ℚ × ℚ × ℚ)
deriving DecidableEq

/-- Translation of the output-length computation of
`regularize_stream_timescale`: `stream1.sample_count` when `same_length`,
otherwise `int(stream1.sample_count / stream1.duration * stream2.duration)`
(a negative value makes the Python `range` empty, hence `Int.toNat`). -/
def regLength (s1 s2 : Sensor3AxisStream) (same_length : Bool) : ℕ :=
  if same_length then s1.sample_count
  else (pyInt ((s1.sample_count : ℚ) / (s1.duration : ℚ) * (s2.duration : ℚ))).toNat

/-- Translation of the per-output-index source-index computation of
`regularize_stream_timescale`:
`index = round(((stream1.duration / stream1.sample_count) * i / stream2.duration) * stream2.sample_count)`
clamped above to `stream2.sample_count - 1`. -/
def regIndex (s1 s2 : Sensor3AxisStream) (i : ℕ) : ℤ :=
  let v := pround ((((s1.duration : ℚ) / (s1.sample_count : ℚ)) * (i : ℚ) / (s2.duration : ℚ))
    * (s2.sample_count : ℚ))
  if v > (s2.sample_count : ℤ) - 1 then (s2.sample_count : ℤ) - 1 else v

/-- Translation of `regularize_stream_timescale`
(src/gopro_video_sync/sensor_offset.py): nearest-neighbour resampling of
`stream2` onto `stream1`'s grid; the result reuses `stream2`'s key, name and
units but `stream1`'s duration and sample count.  Python's `stream2.data[index]`
is modelled by `List.getD`; within the index range proved below the two agree
(the theorems' hypotheses keep the computed index inside the list). -/
def regularize_stream_timescale (s1 s2 : Sensor3AxisStream) (same_length : Bool) :
    Sensor3AxisStream :=
  { key := s2.key
    duration := s1.duration
    sample_count := s1.sample_count
    name := s2.name
    units := s2.units
    data := (List.range (regLength s1 s2 same_length)).map
      fun i => s2.data.getD (regIndex s1 s2 i).toNat (0, 0, 0) }

/-- Magnitude reduction `(array * array).sum(axis=1)` of one 3-tuple. -/
def tripleMagnitude (t : ℚ × ℚ × ℚ) : ℚ := t.1 * t.1 + t.2.1 * t.2.1 + t.2.2 * t.2.2

/-- Translation of `magnitudes1 = (array1 * array1).sum(axis=1)` in
`get_stream_offset`, where `array1 = np.array(stream1.data)`. -/
def so_magnitudes1 (s1 : Sensor3AxisStream) : List ℚ :=
  s1.data.map tripleMagnitude

/-- Translation of `magnitudes2` in `get_stream_offset`, where
`array2 = np.array(regularize_stream_timescale(stream1, stream2).data)`
(note: `same_length` defaults to `False`). -/
def so_magnitudes2 (s1 s2 : Sensor3AxisStream) : List ℚ :=
  (regularize_stream_timescale s1 s2 false).data.map tripleMagnitude

/-- Translation of `median_padding = np.full(magnitudes1.size, np.median(magnitudes1))`
in `get_stream_offset` (src/gopro_video_sync/sensor_offset.py): the pad length
is the length of the FIRST magnitude sequence. -/
def so_median_padding (s1 : Sensor3AxisStream) : List ℚ :=
  List.replicate (so_magnitudes1 s1).length (npMedian (so_magnitudes1 s1))

/-- Translation of
`magnitudes1_padded = np.concatenate((median_padding, magnitudes1, median_padding))`. -/
def so_magnitudes1_padded (s1 : Sensor3AxisStream) : List ℚ :=
  so_median_padding s1 ++ so_magnitudes1 s1 ++ so_median_padding s1

/-- Translation of `get_stream_offset` (src/gopro_video_sync/sensor_offset.py):
`shift = -1 * (np.argmax(corr) - (len(magnitudes1) - 1))`,
`offset = (stream1.duration / stream1.sample_count) * shift`. -/
def get_stream_offset (s1 s2 : Sensor3AxisStream) : ℚ :=
  let corr := correlateValid (so_magnitudes1_padded s1) (so_magnitudes2 s1 s2)
  let shift : ℤ := -1 * ((argmax corr : ℤ) - (((so_magnitudes1 s1).length : ℤ) - 1))
  ((s1.duration : ℚ) / (s1.sample_count : ℚ)) * (shift : ℚ)

/-! ### Sample table (gopro-video-sync/gopro-accel-gyro.py, get_samples) -/

/-- Holds information about a sample (gopro-accel-gyro.py, class Sample). -/
structure Sample where
  time_delta : ℕ
  duration : ℕ
  offset : ℕ
  size : ℕ
deriving DecidableEq

/-- Translation of the "stts" expansion loop of `get_samples`: each
`(sample_count, sample_duration)` entry appends `sample_count` copies of
`sample_duration` to the flat duration list. -/
def expand_stts (entries : List (ℕ × ℕ)) : List ℕ :=
  entries.foldl (fun acc e => acc ++ List.replicate e.1 e.2) []

/-- Translation of the final assembly loop of `get_samples`:
`for i in range(len(sample_durations))`, build
`Sample(time_delta, sample_durations[i], sample_offsets[i], sample_sizes[i])`
accumulating `time_delta += sample_durations[i]`.  The Python loop raises
`IndexError` (returning nothing) as soon as `i` falls outside the size or
offset list; that failure is modelled by `none`. -/
def assembleSamples : List ℕ → List ℕ → List ℕ → ℕ → Option (List Sample)
  | [], _, _, _ => some []
  | d :: ds, sz :: szs, o :: offs, td =>
    match assembleSamples ds szs offs (td + d) with
    | some rest => some (⟨td, d, o, sz⟩ :: rest)
    | none => none
  | _ :: _, [], _, _ => none
  | _ :: _, _ :: _, [], _ => none

/-! ### Telemetry stream extractor (gopro-accel-gyro.py, get_3axis_sensor_data)

The byte source is abstracted per consumed Sample: for each Sample the Python
code reads the element count `num_samples` from the sensor box header and then
reads exactly `num_samples` scaled 3-tuples (even a short read still yields a
tuple, since `int.from_bytes` of an empty read is `0`).  A `SamplePayload`
records the Sample's duration, that element count, and the decoded tuples as a
function of the element index. -/
structure SamplePayload where
  duration : ℤ
  numSamples : ℕ
  elems : ℕ → ℚ × ℚ × ℚ

/-- Accumulator loop of `get_3axis_sensor_data`: per Sample, append the decoded
element run to `data`, add the Sample's duration to `total_duration` and the
element count to `total_sample_count`. -/
def extract3AxisAux : List SamplePayload → List (ℚ × ℚ × ℚ) → ℤ → ℕ →
    List (ℚ × ℚ × ℚ) × ℤ × ℕ
  | [], data, dur, cnt => (data, dur, cnt)
  | p :: ps, data, dur, cnt =>
    extract3AxisAux ps (data ++ (List.range p.numSamples).map p.elems)
      (dur + p.duration) (cnt + p.numSamples)

/-- Translation of `get_3axis_sensor_data` (gopro-accel-gyro.py): fold the
accumulator loop over the Samples' payloads and package the result (the
resolved name and units strings do not affect the claims and are passed in). -/
def get_3axis_sensor_data (sensor_key : String) (payloads : List SamplePayload)
    (sname sunits : String) : Sensor3AxisStream :=
  let acc := extract3AxisAux payloads [] 0 0
  ⟨sensor_key, acc.2.1, acc.2.2, sname, sunits, acc.1⟩

/-! ### Box tree navigator (gopro-accel-gyro.py, get_boxes / get_gpmf_boxes) -/

/-- Decoded 8-byte outer MP4 box header: 4-byte big-endian unsigned size
(hence a natural number) and 4-byte ASCII tag. -/
structure OuterHeader where
  size : ℕ
  key : String
deriving DecidableEq

/-- An outer MP4 byte source, abstracted at header granularity: the header
decoded when reading 8 bytes at a given offset. -/
abbrev OuterFile := ℤ → OuterHeader

/-- Holds information about an MP4 box (gopro-accel-gyro.py, class Box). -/
structure Box where
  key : String
  offset : ℤ
  size : ℤ
deriving DecidableEq

/-- Option combination used to model the navigator loop under fuel: the loop
finishes only when both the recursive descent and the remainder of the loop
finish, and the matched boxes precede the later ones. -/
def combineOpt {α : Type} : Option (List α) → Option (List α) → Option (List α)
  | some xs, some ys => some (xs ++ ys)
  | _, _ => none

/-- Translation of the `while offset < end` loop of `get_boxes`
(gopro-accel-gyro.py): read the header at the cursor, on a tag match either
record the box (path exhausted) or recurse into `(offset + 8, size - 8)` with
the rest of the path, then advance the cursor by the declared size.  The first
argument is fuel: `none` means the loop has not finished in that many steps. -/
def boxLoop : ℕ → OuterFile → ℤ → ℤ → List String → Option (List Box)
  | 0, _, _, _, _ => none
  | n + 1, f, offset, endPos, path =>
    if offset < endPos then
      combineOpt
        (if (f offset).key = path.headD "" then
          if path.length = 1 then
            some [⟨(f offset).key, offset, ((f offset).size : ℤ)⟩]
          else
            boxLoop n f (offset + 8) (offset + 8 + (((f offset).size : ℤ) - 8)) path.tail
        else some [])
        (boxLoop n f (offset + ((f offset).size : ℤ)) endPos path)
    else some []

/-- Translation of `get_boxes(f, offset, size, box_path)`: run the loop over
the bounded region `[offset, offset + size)`. -/
def get_boxes (fuel : ℕ) (f : OuterFile) (offset size : ℤ) (box_path : List String) :
    Option (List Box) :=
  boxLoop fuel f offset (offset + size) box_path

/-- Decoded 8-byte GPMF box header: 4-byte ASCII tag, 1-byte element type code,
1-byte structure size, 2-byte big-endian repeat count. -/
structure GpmfHeader where
  key : String
  typeByte : ℕ
  structSize : ℕ
  rep : ℕ
deriving DecidableEq

/-- A GPMF payload byte source, abstracted at header granularity. -/
abbrev GpmfFile := ℤ → GpmfHeader

/-- Holds information about a GPMF box (gopro-accel-gyro.py, class GPMFBox).
The element type is `none` when the type byte is the container sentinel `0`;
otherwise the type byte itself stands for the decoded ASCII character. -/
structure GPMFBox where
  key : String
  offset : ℤ
  size : ℤ
  type : Option ℕ
  struct_size : ℕ
  rep : ℕ
deriving DecidableEq

/-- Translation of `type = None if header[4] == 0 else chr(header[4])`. -/
def gpmfType (typeByte : ℕ) : Option ℕ :=
  if typeByte = 0 then none else some typeByte

/-- Translation of `size = ceil((struct_size * repeat + 8) / 4) * 4`
(gopro-accel-gyro.py line 156), the 32-bit-aligned total size of a GPMF box. -/
def gpmfComputedSize (structSize rep : ℕ) : ℤ :=
  ⌈((structSize * rep + 8 : ℕ) : ℚ) / 4⌉ * 4

/-- Translation of the `while offset < end` loop of `get_gpmf_boxes`
(gopro-accel-gyro.py): like `boxLoop`, but the size is computed from the
alignment formula and descent happens only into container boxes
(`type is None`). -/
def gpmfLoop : ℕ → GpmfFile → ℤ → ℤ → List String → Option (List GPMFBox)
  | 0, _, _, _, _ => none
  | n + 1, f, offset, endPos, path =>
    if offset < endPos then
      combineOpt
        (if (f offset).key = path.headD "" then
          if path.length = 1 then
            some [⟨(f offset).key, offset, gpmfComputedSize (f offset).structSize (f offset).rep,
              gpmfType (f offset).typeByte, (f offset).structSize, (f offset).rep⟩]
          else if (f offset).typeByte = 0 then
            gpmfLoop n f (offset + 8)
              (offset + 8 + (gpmfComputedSize (f offset).structSize (f offset).rep - 8)) path.tail
          else some []
        else some [])
        (gpmfLoop n f (offset + gpmfComputedSize (f offset).structSize (f offset).rep) endPos path)
    else some []

/-- Translation of `get_gpmf_boxes(f, offset, size, box_path)`. -/
def get_gpmf_boxes (fuel : ℕ) (f : GpmfFile) (offset size : ℤ) (box_path : List String) :
    Option (List GPMFBox) :=
  gpmfLoop fuel f offset (offset + size) box_path

/-! ### Spec-side description of what the navigator is meant to return

Modelled from the spec (section 4.1): "starting at the region's offset,
repeatedly read one header, compute the box's total size, and if its tag
equals the current path's first segment, either record it (path exhausted) or
recurse into its payload with the remaining path"; a box "satisfies the path"
when it is reachable this way.  These predicates are used to state that the
navigator only ever returns satisfying boxes, so that "no box satisfies the
path" forces the empty result rather than an error. -/

/-- Modelled from the spec: the cursor positions visited while scanning the
bounded outer-file region `[start, endPos)`; from each visited position the
cursor advances by the declared size of the box found there. -/
inductive OuterChunkStart (f : OuterFile) (endPos : ℤ) : ℤ → ℤ → Prop
  | here (start : ℤ) : start < endPos → OuterChunkStart f endPos start start
  | there (start p : ℤ) : start < endPos →
      OuterChunkStart f endPos (start + ((f start).size : ℤ)) p →
      OuterChunkStart f endPos start p

/-- Modelled from the spec: outer box `b` satisfies path `path` within the
region `[start, endPos)`: its header sits at some visited cursor position, its
tag chain matches the path, and descent happens through `(offset + 8, size - 8)`
payload regions. -/
inductive SatisfiesOuterPath (f : OuterFile) : ℤ → ℤ → List String → Box → Prop
  | found (start endP p : ℤ) :
      OuterChunkStart f endP start p →
      SatisfiesOuterPath f start endP [(f p).key] ⟨(f p).key, p, ((f p).size : ℤ)⟩
  | descend (start endP p : ℤ) (rest : List String) (b : Box) :
      OuterChunkStart f endP start p → rest ≠ [] →
      SatisfiesOuterPath f (p + 8) (p + 8 + (((f p).size : ℤ) - 8)) rest b →
      SatisfiesOuterPath f start endP ((f p).key :: rest) b

/-- Modelled from the spec: the cursor positions visited while scanning the
bounded GPMF region `[start, endPos)`; the cursor advances by the computed
aligned size. -/
inductive GpmfChunkStart (f : GpmfFile) (endPos : ℤ) : ℤ → ℤ → Prop
  | here (start : ℤ) : start < endPos → GpmfChunkStart f endPos start start
  | there (start p : ℤ) : start < endPos →
      GpmfChunkStart f endPos (start + gpmfComputedSize (f start).structSize (f start).rep) p →
      GpmfChunkStart f endPos start p

/-- Modelled from the spec: GPMF box `b` satisfies path `path` within the
region `[start, endPos)`; descent is permitted only through container boxes
(element type code `0`). -/
inductive SatisfiesGpmfPath (f : GpmfFile) : ℤ → ℤ → List String → GPMFBox → Prop
  | found (start endP p : ℤ) :
      GpmfChunkStart f endP start p →
      SatisfiesGpmfPath f start endP [(f p).key]
        ⟨(f p).key, p, gpmfComputedSize (f p).structSize (f p).rep,
         gpmfType (f p).typeByte, (f p).structSize, (f p).rep⟩
  | descend (start endP p : ℤ) (rest : List String) (b : GPMFBox) :
      GpmfChunkStart f endP start p → rest ≠ [] → (f p).typeByte = 0 →
      SatisfiesGpmfPath f (p + 8)
        (p + 8 + (gpmfComputedSize (f p).structSize (f p).rep - 8)) rest b →
      SatisfiesGpmfPath f start endP ((f p).key :: rest) b

/-! ### Concrete inputs used by the claims' scenarios and counterexamples -/

/-- A concrete sensor stream: 3 samples over duration 3, with one distinct
feature so that the cross-correlation peak is unique. -/
def c2Stream : Sensor3AxisStream :=
  ⟨"ACCL", 3, 3, "Accelerometer", "m/s2", [(0, 0, 0), (0, 0, 0), (3, 0, 0)]⟩

/-- A concrete first stream for the padding counterexample: 4 samples over
duration 4. -/
def c3Stream1 : Sensor3AxisStream :=
  ⟨"ACCL", 4, 4, "", "", [(1, 0, 0), (0, 0, 0), (0, 0, 0), (2, 0, 0)]⟩

/-- A concrete second stream for the padding counterexample: 2 samples over
duration 2, so its regularized magnitude sequence has length 2, different from
the first stream's 4. -/
def c3Stream2 : Sensor3AxisStream :=
  ⟨"ACCL", 2, 2, "", "", [(1, 0, 0), (0, 0, 0)]⟩

/-- A concrete reference stream (2 samples over duration 2) for the
`same_length=False` invariant counterexample. -/
def c7Stream1 : Sensor3AxisStream :=
  ⟨"ACCL", 2, 2, "", "", [(1, 0, 0), (0, 0, 0)]⟩

/-- A concrete target stream (4 samples over duration 4) for the
`same_length=False` invariant counterexample. -/
def c7Stream2 : Sensor3AxisStream :=
  ⟨"GYRO", 4, 4, "", "", [(1, 0, 0), (2, 0, 0), (3, 0, 0), (4, 0, 0)]⟩

/-- Concrete streams used to witness the resampling theorem. -/
def c5Stream1 : Sensor3AxisStream :=
  ⟨"ACCL", 2, 2, "", "", [(1, 0, 0), (2, 0, 0)]⟩

/-- Second concrete stream used to witness the resampling theorem. -/
def c5Stream2 : Sensor3AxisStream :=
  ⟨"GYRO", 2, 2, "", "", [(3, 0, 0), (4, 0, 0)]⟩

/-- The synthetic test signal of the spec's `get_offset` scenario: length 1000
with a single unit spike at index 500 (a clear, well-correlated feature), all
other samples 0. -/
def c4Signal : List ℚ := List.replicate 500 0 ++ 1 :: List.replicate 499 0

/-- The input construction of the spec's `get_offset` scenario: shift a signal
right by `k` samples, dropping the last `k` and padding the front with the
first value. -/
def shiftRightFill (k : ℕ) (l : List ℚ) : List ℚ :=
  List.replicate k (l.headD 0) ++ l.take (l.length - k)

/-! ## Theorems -/

/-! ### Helper lemmas about the sample-table assembly -/

theorem assembleSamples_isSome_iff (ds : List ℕ) : ∀ (szs offs : List ℕ) (td : ℕ),
    (assembleSamples ds szs offs td).isSome ↔
      ds.length ≤ szs.length ∧ ds.length ≤ offs.length := by
  induction ds with
  | nil => intro szs offs td; simp [assembleSamples]
  | cons d ds ih =>
    intro szs offs td
    cases szs with
    | nil => simp [assembleSamples]
    | cons sz szs =>
      cases offs with
      | nil => simp [assembleSamples]
      | cons o offs =>
        have := ih szs offs (td + d)
        simp only [assembleSamples, List.length_cons]
        cases h : assembleSamples ds szs offs (td + d) with
        | none => rw [h] at this; simp at this ⊢; omega
        | some rest => rw [h] at this; simp at this ⊢; omega

theorem assembleSamples_time_delta : ∀ (ds szs offs : List ℕ) (td : ℕ) (l : List Sample),
    assembleSamples ds szs offs td = some l →
    ∀ (i : ℕ) (h : i < l.length), (l.get ⟨i, h⟩).time_delta = td + (ds.take i).sum := by
  intro ds
  induction ds with
  | nil =>
    intro szs offs td l h i hi
    simp [assembleSamples] at h
    subst h; simp at hi
  | cons d ds ih =>
    intro szs offs td l h i hi
    cases szs with
    | nil => simp [assembleSamples] at h
    | cons sz szs =>
      cases offs with
      | nil => simp [assembleSamples] at h
      | cons o offs =>
        simp only [assembleSamples] at h
        cases hrest : assembleSamples ds szs offs (td + d) with
        | none => rw [hrest] at h; simp at h
        | some rest =>
          rw [hrest] at h
          simp only [Option.some.injEq] at h
          subst h
          cases i with
          | zero => simp
          | succ i =>
            simp only [List.get_cons_succ]
            have hi' : i < rest.length := by simpa using hi
            have := ih szs offs (td + d) rest hrest i hi'
            rw [this]
            simp [List.take_succ_cons, List.sum_cons]
            omega

/-! ### Claim C1 -/

/-- C1 counterexample: the decoded duration list `[10]` is SHORTER than the
size list `[1, 2]` and the offset list `[3, 4]`, so the three lists do not all
have equal length, yet the assembly loop of `get_samples` happily returns a
Sample sequence (the surplus sizes and offsets are silently ignored). -/
theorem c1_counterexample :
    assembleSamples [10] [1, 2] [3, 4] 0 = some [⟨0, 10, 3, 1⟩]
    ∧ ¬ (([10] : List ℕ).length = ([1, 2] : List ℕ).length
          ∧ ([1, 2] : List ℕ).length = ([3, 4] : List ℕ).length) := by
  refine ⟨by decide, by decide⟩

/-- C1 amended: the assembly loop of `get_samples` fails (with an uncaught
`IndexError`) exactly when the decoded duration list is strictly longer than
the size list or the offset list; whenever the duration list is no longer than
both, a Sample sequence is returned even if the three lengths differ. -/
theorem c1_sample_table_failure (ds szs offs : List ℕ) (td : ℕ) :
    (assembleSamples ds szs offs td).isSome ↔
      ds.length ≤ szs.length ∧ ds.length ≤ offs.length :=
  assembleSamples_isSome_iff ds szs offs td

/-! ### Claim C6 -/

/-- C6: the time-to-sample table `[(2,10),(3,20),(1,5)]` expands to the flat
duration list `[10,10,20,20,20,5]`; assembling Samples from it produces
cumulative time deltas `[0,10,20,40,60,80]`; and in general the `i`-th
assembled Sample's `time_delta` is the running sum of the prior durations
(the first being the initial accumulator value, `0` in `get_samples`). -/
theorem c6_time_to_sample_expansion :
    expand_stts [(2, 10), (3, 20), (1, 5)] = [10, 10, 20, 20, 20, 5]
    ∧ (assembleSamples (expand_stts [(2, 10), (3, 20), (1, 5)])
          [1, 1, 1, 1, 1, 1] [0, 0, 0, 0, 0, 0] 0).map (fun l => l.map Sample.time_delta)
        = some [0, 10, 20, 40, 60, 80]
    ∧ (∀ (ds szs offs : List ℕ) (td : ℕ) (l : List Sample),
        assembleSamples ds szs offs td = some l →
        ∀ (i : ℕ) (h : i < l.length), (l.get ⟨i, h⟩).time_delta = td + (ds.take i).sum) :=
  ⟨by decide, by decide, assembleSamples_time_delta⟩

/-- Witness for C6: the general cumulative-delta statement applied to a
concrete two-entry table. -/
theorem c6_time_to_sample_expansion_witness :
    (([⟨0, 10, 2, 1⟩, ⟨10, 10, 3, 1⟩] : List Sample).get ⟨1, by decide⟩).time_delta
      = 0 + (([10, 10] : List ℕ).take 1).sum :=
  c6_time_to_sample_expansion.2.2 [10, 10] [1, 1] [2, 3] 0
    [⟨0, 10, 2, 1⟩, ⟨10, 10, 3, 1⟩] (by decide) 1 (by decide)

/-! ### Claim C2 -/

/-- C2: `get_stream_offset` of a stream with itself (identical data, duration
and sample count, with a unique correlation peak) does NOT return 0: the shift
conversion `-(argmax - (len(magnitudes1) - 1))` is off by one sample relative
to the zero-lag position `len(magnitudes1)` of the valid correlation (compare
`get_offset`, which subtracts `data_2.size`), so the result is minus one
average sample period, here `-1`. -/
theorem c2_identical_streams_nonzero :
    get_stream_offset c2Stream c2Stream = -1
    ∧ get_stream_offset c2Stream c2Stream ≠ 0 := by
  constructor
  · with_unfolding_all decide
  · with_unfolding_all decide

/-! ### Claim C3 -/

/-- C3 counterexample: in `get_stream_offset` the pad placed on each end of the
first magnitude sequence does NOT have the length of the second (unpadded)
sequence: with a first stream of 4 samples and a second stream whose
regularized magnitude sequence has 2 samples, the padded sequence has length
`3 * 4 = 12`, not `4 + 2 * 2 = 8`. -/
theorem c3_counterexample :
    ¬ (so_magnitudes1_padded c3Stream1
        = List.replicate (so_magnitudes2 c3Stream1 c3Stream2).length
            (npMedian (so_magnitudes1 c3Stream1))
          ++ so_magnitudes1 c3Stream1
          ++ List.replicate (so_magnitudes2 c3Stream1 c3Stream2).length
              (npMedian (so_magnitudes1 c3Stream1))) := by
  with_unfolding_all decide

/-- C3 amended: both variants pad the first sequence symmetrically on both ends
with copies of its own median, but the pad length equals the SECOND sequence's
length only in `get_offset`; in `get_stream_offset` it equals the FIRST
magnitude sequence's own length (`np.full(magnitudes1.size, ...)`), giving a
padded length of `3 * len(magnitudes1)`. -/
theorem c3_median_padding :
    (∀ data_1 data_2 : List ℚ,
        co_data_1_padded data_1 data_2
          = List.replicate data_2.length (npMedian data_1) ++ data_1
            ++ List.replicate data_2.length (npMedian data_1)
        ∧ (co_data_1_padded data_1 data_2).length = data_1.length + 2 * data_2.length)
    ∧ (∀ s1 : Sensor3AxisStream,
        so_magnitudes1_padded s1
          = List.replicate (so_magnitudes1 s1).length (npMedian (so_magnitudes1 s1))
            ++ so_magnitudes1 s1
            ++ List.replicate (so_magnitudes1 s1).length (npMedian (so_magnitudes1 s1))
        ∧ (so_magnitudes1_padded s1).length = 3 * (so_magnitudes1 s1).length) := by
  constructor
  · intro data_1 data_2
    refine ⟨rfl, ?_⟩
    simp [co_data_1_padded, co_median_padding]
    omega
  · intro s1
    refine ⟨rfl, ?_⟩
    simp [so_magnitudes1_padded, so_median_padding]
    omega

/-! ### Claim C7 -/

theorem extract3AxisAux_len : ∀ (ps : List SamplePayload) (data : List (ℚ × ℚ × ℚ))
    (dur : ℤ) (cnt : ℕ),
    (extract3AxisAux ps data dur cnt).1.length
      = data.length + (ps.map SamplePayload.numSamples).sum := by
  intro ps
  induction ps with
  | nil => intro data dur cnt; simp [extract3AxisAux]
  | cons p ps ih =>
    intro data dur cnt
    simp only [extract3AxisAux, List.map_cons, List.sum_cons]
    rw [ih]
    simp
    omega

theorem extract3AxisAux_cnt : ∀ (ps : List SamplePayload) (data : List (ℚ × ℚ × ℚ))
    (dur : ℤ) (cnt : ℕ),
    (extract3AxisAux ps data dur cnt).2.2 = cnt + (ps.map SamplePayload.numSamples).sum := by
  intro ps
  induction ps with
  | nil => intro data dur cnt; simp [extract3AxisAux]
  | cons p ps ih =>
    intro data dur cnt
    simp only [extract3AxisAux, List.map_cons, List.sum_cons]
    rw [ih]
    omega

theorem extract3AxisAux_dur : ∀ (ps : List SamplePayload) (data : List (ℚ × ℚ × ℚ))
    (dur : ℤ) (cnt : ℕ),
    (extract3AxisAux ps data dur cnt).2.1 = dur + (ps.map SamplePayload.duration).sum := by
  intro ps
  induction ps with
  | nil => intro data dur cnt; simp [extract3AxisAux]
  | cons p ps ih =>
    intro data dur cnt
    simp only [extract3AxisAux, List.map_cons, List.sum_cons]
    rw [ih]
    ring

/-- C7 counterexample: `regularize_stream_timescale` with `same_length=False`
returns a stream whose `sample_count` field is `stream1.sample_count` while its
data has `int(n1 / d1 * d2)` elements: with a 2-sample/2-duration reference and
a 4-sample/4-duration target the data has 4 elements but `sample_count = 2`,
violating `len(data) == total_sample_count`. -/
theorem c7_counterexample :
    ¬ ((regularize_stream_timescale c7Stream1 c7Stream2 false).data.length
        = (regularize_stream_timescale c7Stream1 c7Stream2 false).sample_count) := by
  with_unfolding_all decide

/-- C7 amended: the stream built by the telemetry stream extractor satisfies
`len(data) == total_sample_count` and `total_duration == sum of consumed
Samples' durations`, and `regularize_stream_timescale` with `same_length=True`
also satisfies `len(data) == sample_count`; with `same_length=False` the
returned stream's `sample_count` is `stream1.sample_count` while its data has
`int(stream1.sample_count / stream1.duration * stream2.duration)` elements,
and these two numbers need not be equal (the counterexample exhibits streams
where they differ, so the invariant does not hold for that variant in
general). -/
theorem c7_stream_invariants :
    (∀ (sensor_key sname sunits : String) (payloads : List SamplePayload),
        (get_3axis_sensor_data sensor_key payloads sname sunits).data.length
          = (get_3axis_sensor_data sensor_key payloads sname sunits).sample_count
        ∧ (get_3axis_sensor_data sensor_key payloads sname sunits).duration
          = (payloads.map SamplePayload.duration).sum)
    ∧ (∀ s1 s2 : Sensor3AxisStream,
        (regularize_stream_timescale s1 s2 true).data.length
          = (regularize_stream_timescale s1 s2 true).sample_count)
    ∧ (∀ s1 s2 : Sensor3AxisStream,
        (regularize_stream_timescale s1 s2 false).sample_count = s1.sample_count
        ∧ (regularize_stream_timescale s1 s2 false).data.length
          = (pyInt ((s1.sample_count : ℚ) / (s1.duration : ℚ) * (s2.duration : ℚ))).toNat) := by
  refine ⟨?_, ?_, ?_⟩
  · intro sensor_key sname sunits payloads
    constructor
    · simp [get_3axis_sensor_data, extract3AxisAux_len, extract3AxisAux_cnt]
    · simp [get_3axis_sensor_data, extract3AxisAux_dur]
  · intro s1 s2
    simp [regularize_stream_timescale, regLength]
  · intro s1 s2
    exact ⟨rfl, by simp [regularize_stream_timescale, regLength]⟩

/-! ### Claim C5 -/

theorem pround_ge_floor (q : ℚ) : ⌊q⌋ ≤ pround q := by
  unfold pround; split_ifs <;> omega

theorem pround_le_floor_add_one (q : ℚ) : pround q ≤ ⌊q⌋ + 1 := by
  unfold pround; split_ifs <;> omega

theorem pround_mono {x y : ℚ} (h : x ≤ y) : pround x ≤ pround y := by
  have hf : ⌊x⌋ ≤ ⌊y⌋ := Int.floor_le_floor h
  rcases lt_or_eq_of_le hf with hlt | heq
  · calc pround x ≤ ⌊x⌋ + 1 := pround_le_floor_add_one x
      _ ≤ ⌊y⌋ := by omega
      _ ≤ pround y := pround_ge_floor y
  · unfold pround
    rw [← heq]
    split_ifs <;> first | omega | (exfalso; linarith)

theorem pround_nonneg {q : ℚ} (hq : 0 ≤ q) : 0 ≤ pround q := by
  have h0 : 0 ≤ ⌊q⌋ := Int.floor_nonneg.mpr hq
  have := pround_ge_floor q
  omega

theorem getD_map_range {α : Type} (n i : ℕ) (g : ℕ → α) (d : α) (h : i < n) :
    ((List.range n).map g).getD i d = g i := by
  rw [List.getD_eq_getElem?_getD, List.getElem?_map, List.getElem?_range h]
  rfl

/-- C5: for streams with positive sample counts and durations (and the
SensorStream invariant `len(data) == sample_count` for the target),
`regularize_stream_timescale(s1, s2, same_length=True)` returns exactly
`s1.sample_count` elements, each a copy of `s2.data` at the computed index;
the index sequence is non-negative, clamped to the target's last valid index
and monotonically non-decreasing. -/
theorem c5_regularize_same_length (s1 s2 : Sensor3AxisStream)
    (h1 : 0 < s1.sample_count) (h2 : 0 < s2.sample_count)
    (h3 : 0 < s1.duration) (h4 : 0 < s2.duration)
    (h5 : s2.data.length = s2.sample_count) :
    (regularize_stream_timescale s1 s2 true).data.length = s1.sample_count
    ∧ (∀ i : ℕ, i < s1.sample_count →
        (regularize_stream_timescale s1 s2 true).data.getD i (0, 0, 0)
          = s2.data.getD (regIndex s1 s2 i).toNat (0, 0, 0))
    ∧ (∀ i : ℕ, 0 ≤ regIndex s1 s2 i ∧ regIndex s1 s2 i ≤ (s2.data.length : ℤ) - 1)
    ∧ (∀ i : ℕ, regIndex s1 s2 i ≤ regIndex s1 s2 (i + 1)) := by
  have hd1 : (0:ℚ) < (s1.duration : ℚ) := by exact_mod_cast h3
  have hn1 : (0:ℚ) < (s1.sample_count : ℚ) := by exact_mod_cast h1
  have hd2 : (0:ℚ) < (s2.duration : ℚ) := by exact_mod_cast h4
  have hn2 : (0:ℚ) < (s2.sample_count : ℚ) := by exact_mod_cast h2
  have hx : ∀ i : ℕ, (0:ℚ) ≤ ((s1.duration : ℚ) / (s1.sample_count : ℚ)) * (i : ℚ)
      / (s2.duration : ℚ) * (s2.sample_count : ℚ) := by
    intro i
    have hi : (0:ℚ) ≤ (i : ℚ) := by positivity
    exact mul_nonneg (div_nonneg (mul_nonneg (div_nonneg hd1.le hn1.le) hi) hd2.le) hn2.le
  refine ⟨?_, ?_, ?_, ?_⟩
  · simp [regularize_stream_timescale, regLength]
  · intro i hi
    have hdata : (regularize_stream_timescale s1 s2 true).data
        = (List.range s1.sample_count).map
            (fun j => s2.data.getD (regIndex s1 s2 j).toNat (0, 0, 0)) := by
      simp [regularize_stream_timescale, regLength]
    rw [hdata, getD_map_range _ _ _ _ hi]
  · intro i
    have h0 : 0 ≤ pround (((s1.duration : ℚ) / (s1.sample_count : ℚ)) * (i : ℚ)
        / (s2.duration : ℚ) * (s2.sample_count : ℚ)) := pround_nonneg (hx i)
    have hc : (1 : ℤ) ≤ (s2.sample_count : ℤ) := by exact_mod_cast h2
    have hlen : ((s2.data.length : ℤ)) = (s2.sample_count : ℤ) := by exact_mod_cast h5
    constructor
    · simp only [regIndex]
      split_ifs <;> omega
    · rw [hlen]
      simp only [regIndex]
      split_ifs <;> omega
  · intro i
    have hstep : ((s1.duration : ℚ) / (s1.sample_count : ℚ)) * (i : ℚ)
        / (s2.duration : ℚ) * (s2.sample_count : ℚ)
        ≤ ((s1.duration : ℚ) / (s1.sample_count : ℚ)) * ((i + 1 : ℕ) : ℚ)
        / (s2.duration : ℚ) * (s2.sample_count : ℚ) := by
      have hA : (0:ℚ) ≤ (s1.duration : ℚ) / (s1.sample_count : ℚ) := div_nonneg hd1.le hn1.le
      have hii : (i : ℚ) ≤ ((i + 1 : ℕ) : ℚ) := by push_cast; linarith
      have hmul := mul_le_mul_of_nonneg_left hii hA
      have hdiv := (div_le_div_iff_of_pos_right hd2).mpr hmul
      exact mul_le_mul_of_nonneg_right hdiv hn2.le
    have hm := pround_mono hstep
    simp only [regIndex]
    split_ifs <;> omega

/-- Witness for C5 at concrete streams. -/
theorem c5_regularize_same_length_witness :
    (regularize_stream_timescale c5Stream1 c5Stream2 true).data.length = c5Stream1.sample_count
    ∧ regIndex c5Stream1 c5Stream2 0 ≤ regIndex c5Stream1 c5Stream2 1 :=
  ⟨(c5_regularize_same_length c5Stream1 c5Stream2 (by decide) (by decide) (by decide) (by decide)
      (by decide)).1,
   (c5_regularize_same_length c5Stream1 c5Stream2 (by decide) (by decide) (by decide) (by decide)
      (by decide)).2.2.2 0⟩

/-! ### Claim C4 -/

theorem dot_replicate_zero : ∀ (x : List ℚ) (q : ℕ),
    (x.zipWith (· * ·) (List.replicate q 0)).sum = 0 := by
  intro x
  induction x with
  | nil => intro q; simp
  | cons a t ih =>
    intro q
    cases q with
    | zero => simp
    | succ q =>
      rw [List.replicate_succ, List.zipWith_cons_cons, List.sum_cons, ih q]
      ring

theorem dot_unit : ∀ (p : ℕ) (x : List ℚ) (q : ℕ),
    (x.zipWith (· * ·) (List.replicate p 0 ++ 1 :: List.replicate q 0)).sum = x.getD p 0 := by
  intro p
  induction p with
  | zero =>
    intro x q
    cases x with
    | nil => simp
    | cons a t =>
      rw [List.replicate_zero, List.nil_append, List.zipWith_cons_cons, List.sum_cons,
        dot_replicate_zero, List.getD_cons_zero]
      ring
  | succ p ih =>
    intro x q
    cases x with
    | nil => simp
    | cons a t =>
      rw [List.replicate_succ, List.cons_append, List.zipWith_cons_cons, List.sum_cons, ih,
        List.getD_cons_succ]
      ring

theorem getD_drop (l : List ℚ) (k i : ℕ) (d : ℚ) : (l.drop k).getD i d = l.getD (k + i) d := by
  rw [List.getD_eq_getElem?_getD, List.getElem?_drop, List.getD_eq_getElem?_getD]

theorem spike_getD : ∀ (a : ℕ) (b i : ℕ),
    (List.replicate a (0:ℚ) ++ 1 :: List.replicate b 0).getD i 0
      = if i = a then 1 else 0 := by
  intro a
  induction a with
  | zero =>
    intro b i
    rw [List.replicate_zero, List.nil_append]
    cases i with
    | zero => simp
    | succ i =>
      rw [List.getD_cons_succ, if_neg (by omega), List.getD_eq_getElem?_getD,
        List.getElem?_replicate]
      split_ifs <;> rfl
  | succ a ih =>
    intro b i
    rw [List.replicate_succ, List.cons_append]
    cases i with
    | zero => rw [List.getD_cons_zero, if_neg (by omega)]
    | succ i =>
      rw [List.getD_cons_succ, ih]
      by_cases h : i = a
      · subst h; rw [if_pos rfl, if_pos rfl]
      · rw [if_neg h, if_neg (by omega)]

theorem spike_length (a b : ℕ) :
    (List.replicate a (0:ℚ) ++ 1 :: List.replicate b 0).length = a + b + 1 := by
  rw [List.length_append, List.length_replicate, List.length_cons, List.length_replicate]
  omega

theorem map_range_if : ∀ (n a : ℕ), a < n →
    (List.range n).map (fun k => if k = a then (1:ℚ) else 0)
      = List.replicate a 0 ++ 1 :: List.replicate (n - a - 1) 0 := by
  intro n
  induction n with
  | zero => intro a h; omega
  | succ n ih =>
    intro a h
    rw [List.range_succ, List.map_append]
    rcases Nat.lt_or_ge a n with h' | h'
    · rw [ih a h']
      have hlast : List.map (fun k => if k = a then (1:ℚ) else 0) [n] = [0] := by
        simp only [List.map_cons, List.map_nil]
        rw [if_neg (by omega)]
      rw [hlast, List.append_assoc, List.cons_append]
      have : (List.replicate (n - a - 1) (0:ℚ)) ++ [0] = List.replicate (n + 1 - a - 1) 0 := by
        rw [← List.replicate_succ']
        congr 1
        omega
      rw [this]
    · have ha : a = n := by omega
      subst ha
      have hzero : List.map (fun k => if k = a then (1:ℚ) else 0) (List.range a)
          = List.replicate a 0 := by
        refine List.eq_replicate_iff.mpr ⟨by simp, ?_⟩
        intro b hb
        simp only [List.mem_map, List.mem_range] at hb
        obtain ⟨k, hk, rfl⟩ := hb
        rw [if_neg (by omega)]
      rw [hzero]
      have : a + 1 - a - 1 = 0 := by omega
      rw [this, List.replicate_zero]
      simp

theorem argmaxGo_after_peak : ∀ (b bi i : ℕ), argmaxGo (List.replicate b (0:ℚ)) 1 bi i = bi := by
  intro b
  induction b with
  | zero => intro bi i; rfl
  | succ b ih =>
    intro bi i
    rw [List.replicate_succ]
    simp only [argmaxGo]
    rw [if_neg (by norm_num)]
    exact ih bi (i + 1)

theorem argmaxGo_spike : ∀ (k b bi i : ℕ),
    argmaxGo (List.replicate k (0:ℚ) ++ 1 :: List.replicate b 0) 0 bi i = i + k := by
  intro k
  induction k with
  | zero =>
    intro b bi i
    rw [List.replicate_zero, List.nil_append]
    simp only [argmaxGo]
    rw [if_pos (by norm_num), argmaxGo_after_peak]
    omega
  | succ k ih =>
    intro b bi i
    rw [List.replicate_succ, List.cons_append]
    simp only [argmaxGo]
    rw [if_neg (by norm_num), ih]
    omega

theorem argmax_spike : ∀ (a b : ℕ),
    argmax (List.replicate a (0:ℚ) ++ 1 :: List.replicate b 0) = a := by
  intro a b
  cases a with
  | zero =>
    rw [List.replicate_zero, List.nil_append]
    simp only [argmax]
    rw [argmaxGo_after_peak]
  | succ a =>
    rw [List.replicate_succ, List.cons_append]
    simp only [argmax]
    rw [argmaxGo_spike]
    omega

theorem correlate_spikes :
    correlateValid (List.replicate 1500 (0:ℚ) ++ 1 :: List.replicate 1499 0)
        (List.replicate 550 (0:ℚ) ++ 1 :: List.replicate 449 0)
      = List.replicate 950 0 ++ 1 :: List.replicate 1050 0 := by
  have hlen : (List.replicate 1500 (0:ℚ) ++ 1 :: List.replicate 1499 0).length + 1
      - (List.replicate 550 (0:ℚ) ++ 1 :: List.replicate 449 0).length = 2001 := by
    rw [spike_length, spike_length]
  rw [correlateValid, hlen]
  have step : ∀ k ∈ List.range 2001,
      (((List.replicate 1500 (0:ℚ) ++ 1 :: List.replicate 1499 0).drop k).zipWith (· * ·)
          (List.replicate 550 (0:ℚ) ++ 1 :: List.replicate 449 0)).sum
        = if k = 950 then (1:ℚ) else 0 := by
    intro k hk
    rw [dot_unit, getD_drop, spike_getD]
    by_cases h : k = 950
    · subst h; norm_num
    · rw [if_neg (by omega), if_neg h]
  rw [List.map_congr_left step, map_range_if 2001 950 (by omega)]

theorem c4Signal_shifted :
    shiftRightFill 50 c4Signal = List.replicate 550 0 ++ 1 :: List.replicate 449 0 := by
  have hhead : c4Signal.headD 0 = 0 := by
    rw [c4Signal, show (500:ℕ) = 499 + 1 from rfl, List.replicate_succ, List.cons_append]
    rfl
  have hlen : c4Signal.length = 1000 := by rw [c4Signal, spike_length]
  rw [shiftRightFill, hhead, hlen, c4Signal, List.take_append_eq_append_take]
  rw [List.take_replicate, List.length_replicate]
  rw [show (1000 - 50 : ℕ) ⊓ 500 = 500 from rfl,
    show (1000 - 50 - 500 : ℕ) = 449 + 1 from rfl, List.take_succ_cons, List.take_replicate,
    show (449 : ℕ) ⊓ 499 = 449 from rfl]
  rw [← List.append_assoc, ← List.replicate_add]

theorem c4Signal_median : npMedian c4Signal = 0 := by
  have hperm : c4Signal.Perm (List.replicate 999 (0:ℚ) ++ 1 :: List.replicate 0 0) := by
    rw [c4Signal, List.replicate_zero]
    refine List.perm_middle.trans ?_
    have h2 : ((1:ℚ) :: (List.replicate 500 0 ++ List.replicate 499 0))
        = 1 :: List.replicate 999 0 := by
      rw [← List.replicate_add]
    rw [h2]
    have h3 := @List.perm_middle ℚ 1 (List.replicate 999 0) []
    rw [List.append_nil] at h3
    exact h3.symm
  have hsorted : List.Sorted (· ≤ ·) (List.replicate 999 (0:ℚ) ++ 1 :: List.replicate 0 0) := by
    rw [List.replicate_zero, List.Sorted, List.pairwise_append]
    refine ⟨List.pairwise_replicate.mpr (Or.inr le_rfl), List.pairwise_singleton _ _, ?_⟩
    intro a ha b hb
    simp only [List.eq_of_mem_replicate ha, List.mem_singleton.mp hb]
    norm_num
  have hs : List.insertionSort (· ≤ ·) c4Signal
      = List.replicate 999 (0:ℚ) ++ 1 :: List.replicate 0 0 :=
    List.eq_of_perm_of_sorted ((List.perm_insertionSort _ _).trans hperm)
      (List.sorted_insertionSort _ _) hsorted
  have hlen : c4Signal.length = 1000 := by rw [c4Signal, spike_length]
  rw [npMedian]
  simp only [hs, hlen]
  rw [if_neg (by norm_num)]
  rw [show (1000 / 2 - 1 : ℕ) = 499 from rfl, show (1000 / 2 : ℕ) = 500 from rfl]
  rw [spike_getD, spike_getD, if_neg (by omega), if_neg (by omega)]
  norm_num

theorem c4_padded :
    co_data_1_padded c4Signal (List.replicate 550 0 ++ 1 :: List.replicate 449 0)
      = List.replicate 1500 (0:ℚ) ++ 1 :: List.replicate 1499 0 := by
  have hlen : (List.replicate 550 (0:ℚ) ++ 1 :: List.replicate 449 0).length = 1000 := by
    rw [spike_length]
  rw [co_data_1_padded, co_median_padding, hlen, c4Signal_median, c4Signal]
  rw [← List.append_assoc]
  rw [show List.replicate 1000 (0:ℚ) ++ List.replicate 500 0 = List.replicate 1500 0 from by
    rw [← List.replicate_add]]
  rw [List.append_assoc, List.cons_append]
  rw [show List.replicate 499 (0:ℚ) ++ List.replicate 1000 0 = List.replicate 1499 0 from by
    rw [← List.replicate_add]]

/-- C4: for the representative synthetic signal of length 1000 (a clear,
well-correlated feature) at sample rate 200, shifting the signal right by 50
samples (dropping the last 50 and front-padding with the first value) makes
`get_offset` return exactly `+0.25` seconds; the positive sign signals that
the second input lags behind the first. -/
theorem c4_shifted_signal_offset :
    c4Signal.length = 1000
    ∧ get_offset c4Signal (shiftRightFill 50 c4Signal) 200 = 1/4
    ∧ 0 < get_offset c4Signal (shiftRightFill 50 c4Signal) 200 := by
  have hlen1000 : c4Signal.length = 1000 := by rw [c4Signal, spike_length]
  have hvlen : (List.replicate 550 (0:ℚ) ++ 1 :: List.replicate 449 0).length = 1000 := by
    rw [spike_length]
  have hoff : get_offset c4Signal (shiftRightFill 50 c4Signal) 200 = 1/4 := by
    rw [c4Signal_shifted]
    simp only [get_offset]
    rw [c4_padded, correlate_spikes, argmax_spike, hvlen]
    push_cast
    norm_num
  exact ⟨hlen1000, hoff, by rw [hoff]; norm_num⟩

/-! ### Navigator helper lemmas (claims C8, C9, C10) -/

theorem combineOpt_eq_some {α : Type} {a r : Option (List α)} {l : List α}
    (h : combineOpt a r = some l) :
    ∃ xs ys, a = some xs ∧ r = some ys ∧ l = xs ++ ys := by
  cases a with
  | none => simp [combineOpt] at h
  | some xs =>
    cases r with
    | none => simp [combineOpt] at h
    | some ys =>
      refine ⟨xs, ys, rfl, rfl, ?_⟩
      simpa [combineOpt] using h.symm

theorem combineOpt_none_right {α : Type} (a : Option (List α)) :
    combineOpt a (none : Option (List α)) = none := by
  cases a <;> rfl

theorem satisfiesOuter_change_start {f : OuterFile} {s s' endP : ℤ} {path : List String}
    {b : Box} (h : SatisfiesOuterPath f s endP path b)
    (hstep : ∀ p : ℤ, OuterChunkStart f endP s p → OuterChunkStart f endP s' p) :
    SatisfiesOuterPath f s' endP path b := by
  cases h with
  | found s endP p hc => exact SatisfiesOuterPath.found s' endP p (hstep p hc)
  | descend s endP p rest b hc hne hs =>
    exact SatisfiesOuterPath.descend s' endP p rest b (hstep p hc) hne hs

theorem satisfiesGpmf_change_start {f : GpmfFile} {s s' endP : ℤ} {path : List String}
    {b : GPMFBox} (h : SatisfiesGpmfPath f s endP path b)
    (hstep : ∀ p : ℤ, GpmfChunkStart f endP s p → GpmfChunkStart f endP s' p) :
    SatisfiesGpmfPath f s' endP path b := by
  cases h with
  | found s endP p hc => exact SatisfiesGpmfPath.found s' endP p (hstep p hc)
  | descend s endP p rest b hc hne hty hs =>
    exact SatisfiesGpmfPath.descend s' endP p rest b (hstep p hc) hne hty hs

theorem boxLoop_mem : ∀ (n : ℕ) (f : OuterFile) (off endP : ℤ) (path : List String)
    (l : List Box) (b : Box), path ≠ [] → boxLoop n f off endP path = some l → b ∈ l →
    SatisfiesOuterPath f off endP path b := by
  intro n
  induction n with
  | zero => intro f off endP path l b _ h _; simp [boxLoop] at h
  | succ n ih =>
    intro f off endP path l b hpath h hb
    simp only [boxLoop] at h
    by_cases hlt : off < endP
    · rw [if_pos hlt] at h
      obtain ⟨k, rest, rfl⟩ : ∃ k rest, path = k :: rest := by
        cases path with
        | nil => exact absurd rfl hpath
        | cons k rest => exact ⟨k, rest, rfl⟩
      simp only [List.headD_cons, List.tail_cons, List.length_cons] at h
      obtain ⟨bs, rest2, hA, hR, rfl⟩ := combineOpt_eq_some h
      rcases List.mem_append.mp hb with hbs | hr2
      · by_cases hkey : (f off).key = k
        · rw [if_pos hkey] at hA
          by_cases hone : rest = []
          · subst hone
            rw [if_pos (by simp)] at hA
            simp only [Option.some.injEq] at hA
            subst hA
            have hb' : b = ⟨(f off).key, off, ((f off).size : ℤ)⟩ := by simpa using hbs
            subst hb'
            subst hkey
            exact SatisfiesOuterPath.found off endP off (OuterChunkStart.here off hlt)
          · have hone' : ¬ (rest.length + 1 = 1) := by
              intro hcon
              exact hone (List.length_eq_zero.mp (by omega))
            rw [if_neg hone'] at hA
            have hs := ih f (off + 8) (off + 8 + (((f off).size : ℤ) - 8)) rest bs b hone hA hbs
            subst hkey
            exact SatisfiesOuterPath.descend off endP off rest b
              (OuterChunkStart.here off hlt) hone hs
        · rw [if_neg hkey] at hA
          simp only [Option.some.injEq] at hA
          subst hA
          simp at hbs
      · have hs := ih f (off + ((f off).size : ℤ)) endP (k :: rest) rest2 b (by simp) hR hr2
        exact satisfiesOuter_change_start hs
          (fun p hc => OuterChunkStart.there off p hlt hc)
    · rw [if_neg hlt] at h
      simp only [Option.some.injEq] at h
      subst h
      simp at hb

theorem gpmfLoop_mem : ∀ (n : ℕ) (f : GpmfFile) (off endP : ℤ) (path : List String)
    (l : List GPMFBox) (b : GPMFBox), path ≠ [] → gpmfLoop n f off endP path = some l →
    b ∈ l → SatisfiesGpmfPath f off endP path b := by
  intro n
  induction n with
  | zero => intro f off endP path l b _ h _; simp [gpmfLoop] at h
  | succ n ih =>
    intro f off endP path l b hpath h hb
    simp only [gpmfLoop] at h
    by_cases hlt : off < endP
    · rw [if_pos hlt] at h
      obtain ⟨k, rest, rfl⟩ : ∃ k rest, path = k :: rest := by
        cases path with
        | nil => exact absurd rfl hpath
        | cons k rest => exact ⟨k, rest, rfl⟩
      simp only [List.headD_cons, List.tail_cons, List.length_cons] at h
      obtain ⟨bs, rest2, hA, hR, rfl⟩ := combineOpt_eq_some h
      rcases List.mem_append.mp hb with hbs | hr2
      · by_cases hkey : (f off).key = k
        · rw [if_pos hkey] at hA
          by_cases hone : rest = []
          · subst hone
            rw [if_pos (by simp)] at hA
            simp only [Option.some.injEq] at hA
            subst hA
            have hb' : b = ⟨(f off).key, off,
                gpmfComputedSize (f off).structSize (f off).rep,
                gpmfType (f off).typeByte, (f off).structSize, (f off).rep⟩ := by
              simpa using hbs
            subst hb'
            subst hkey
            exact SatisfiesGpmfPath.found off endP off (GpmfChunkStart.here off hlt)
          · have hone' : ¬ (rest.length + 1 = 1) := by
              intro hcon
              exact hone (List.length_eq_zero.mp (by omega))
            rw [if_neg hone'] at hA
            by_cases hty : (f off).typeByte = 0
            · rw [if_pos hty] at hA
              have hs := ih f (off + 8)
                (off + 8 + (gpmfComputedSize (f off).structSize (f off).rep - 8)) rest bs b
                hone hA hbs
              subst hkey
              exact SatisfiesGpmfPath.descend off endP off rest b
                (GpmfChunkStart.here off hlt) hone hty hs
            · rw [if_neg hty] at hA
              simp only [Option.some.injEq] at hA
              subst hA
              simp at hbs
        · rw [if_neg hkey] at hA
          simp only [Option.some.injEq] at hA
          subst hA
          simp at hbs
      · have hs := ih f (off + gpmfComputedSize (f off).structSize (f off).rep) endP
          (k :: rest) rest2 b (by simp) hR hr2
        exact satisfiesGpmf_change_start hs
          (fun p hc => GpmfChunkStart.there off p hlt hc)
    · rw [if_neg hlt] at h
      simp only [Option.some.injEq] at h
      subst h
      simp at hb

theorem gpmfComputedSize_props (structSize rep : ℕ) :
    4 ∣ gpmfComputedSize structSize rep ∧ 8 ≤ gpmfComputedSize structSize rep := by
  constructor
  · exact dvd_mul_left 4 _
  · have h2 : (2:ℚ) ≤ ((structSize * rep + 8 : ℕ) : ℚ) / 4 := by
      rw [le_div_iff₀ (by norm_num)]
      push_cast
      have : (0:ℚ) ≤ (structSize : ℚ) * (rep : ℚ) := by positivity
      linarith
    have h3 : (2:ℤ) ≤ ⌈((structSize * rep + 8 : ℕ) : ℚ) / 4⌉ := by
      have := Int.ceil_mono h2
      simpa using this
    unfold gpmfComputedSize
    omega

theorem satisfiesGpmf_size {f : GpmfFile} {s endP : ℤ} {path : List String} {b : GPMFBox}
    (h : SatisfiesGpmfPath f s endP path b) :
    ∃ w r : ℕ, b.size = gpmfComputedSize w r := by
  induction h with
  | found s endP p hc => exact ⟨(f p).structSize, (f p).rep, rfl⟩
  | descend s endP p rest b hc hne hty hs ih => exact ih

theorem boxLoop_mono : ∀ (n m : ℕ), n ≤ m → ∀ (f : OuterFile) (off endP : ℤ)
    (path : List String) (l : List Box),
    boxLoop n f off endP path = some l → boxLoop m f off endP path = some l := by
  intro n
  induction n with
  | zero => intro m _ f off endP path l h; simp [boxLoop] at h
  | succ n ih =>
    intro m hm f off endP path l h
    obtain ⟨m', rfl⟩ : ∃ m', m = m' + 1 := ⟨m - 1, by omega⟩
    have hm' : n ≤ m' := by omega
    simp only [boxLoop] at h ⊢
    by_cases hlt : off < endP
    · rw [if_pos hlt] at h ⊢
      obtain ⟨bs, rest2, hA, hR, rfl⟩ := combineOpt_eq_some h
      have hA' : (if (f off).key = path.headD "" then
          if path.length = 1 then some [⟨(f off).key, off, ((f off).size : ℤ)⟩]
          else boxLoop m' f (off + 8) (off + 8 + (((f off).size : ℤ) - 8)) path.tail
        else some []) = some bs := by
        by_cases hkey : (f off).key = path.headD ""
        · rw [if_pos hkey] at hA ⊢
          by_cases hone : path.length = 1
          · rw [if_pos hone] at hA ⊢; exact hA
          · rw [if_neg hone] at hA ⊢; exact ih m' hm' _ _ _ _ _ hA
        · rw [if_neg hkey] at hA ⊢; exact hA
      rw [hA', ih m' hm' _ _ _ _ _ hR]
      rfl
    · rw [if_neg hlt] at h ⊢; exact h

theorem gpmfLoop_mono : ∀ (n m : ℕ), n ≤ m → ∀ (f : GpmfFile) (off endP : ℤ)
    (path : List String) (l : List GPMFBox),
    gpmfLoop n f off endP path = some l → gpmfLoop m f off endP path = some l := by
  intro n
  induction n with
  | zero => intro m _ f off endP path l h; simp [gpmfLoop] at h
  | succ n ih =>
    intro m hm f off endP path l h
    obtain ⟨m', rfl⟩ : ∃ m', m = m' + 1 := ⟨m - 1, by omega⟩
    have hm' : n ≤ m' := by omega
    simp only [gpmfLoop] at h ⊢
    by_cases hlt : off < endP
    · rw [if_pos hlt] at h ⊢
      obtain ⟨bs, rest2, hA, hR, rfl⟩ := combineOpt_eq_some h
      have hA' : (if (f off).key = path.headD "" then
          if path.length = 1 then
            some [⟨(f off).key, off, gpmfComputedSize (f off).structSize (f off).rep,
              gpmfType (f off).typeByte, (f off).structSize, (f off).rep⟩]
          else if (f off).typeByte = 0 then
            gpmfLoop m' f (off + 8)
              (off + 8 + (gpmfComputedSize (f off).structSize (f off).rep - 8)) path.tail
          else some []
        else some []) = some bs := by
        by_cases hkey : (f off).key = path.headD ""
        · rw [if_pos hkey] at hA ⊢
          by_cases hone : path.length = 1
          · rw [if_pos hone] at hA ⊢; exact hA
          · rw [if_neg hone] at hA ⊢
            by_cases hty : (f off).typeByte = 0
            · rw [if_pos hty] at hA ⊢; exact ih m' hm' _ _ _ _ _ hA
            · rw [if_neg hty] at hA ⊢; exact hA
        · rw [if_neg hkey] at hA ⊢; exact hA
      rw [hA', ih m' hm' _ _ _ _ _ hR]
      rfl
    · rw [if_neg hlt] at h ⊢; exact h

theorem boxLoop_stuck : ∀ (n : ℕ) (f : OuterFile) (off endP : ℤ) (path : List String),
    (f off).size = 0 → off < endP → boxLoop n f off endP path = none := by
  intro n
  induction n with
  | zero => intro f off endP path h0 hlt; simp [boxLoop]
  | succ n ih =>
    intro f off endP path h0 hlt
    simp only [boxLoop]
    rw [if_pos hlt]
    have hz : ((f off).size : ℤ) = 0 := by rw [h0]; rfl
    rw [hz, add_zero, ih f off endP path h0 hlt, combineOpt_none_right]

theorem gpmfLoop_total : ∀ (path : List String), path ≠ [] → ∀ (f : GpmfFile) (endP : ℤ)
    (d : ℕ) (off : ℤ), (endP - off).toNat ≤ d →
    ∃ n l, gpmfLoop n f off endP path = some l := by
  intro path
  induction path with
  | nil => intro h; exact absurd rfl h
  | cons k t ih =>
    intro _ f endP d
    induction d with
    | zero =>
      intro off hoff
      refine ⟨1, [], ?_⟩
      simp only [gpmfLoop]
      rw [if_neg (by omega)]
    | succ d ihd =>
      intro off hoff
      by_cases hlt : off < endP
      · have hsz : 8 ≤ gpmfComputedSize (f off).structSize (f off).rep :=
          (gpmfComputedSize_props (f off).structSize (f off).rep).2
        obtain ⟨n2, l2, h2⟩ := ihd (off + gpmfComputedSize (f off).structSize (f off).rep)
          (by omega)
        by_cases hkey : (f off).key = k
        · by_cases hone : t = []
          · subst hone
            refine ⟨n2 + 1,
              [⟨(f off).key, off, gpmfComputedSize (f off).structSize (f off).rep,
                gpmfType (f off).typeByte, (f off).structSize, (f off).rep⟩] ++ l2, ?_⟩
            simp only [gpmfLoop]
            rw [if_pos hlt]
            simp only [List.headD_cons, List.length_cons, List.tail_cons]
            rw [if_pos hkey, if_pos (by simp), h2]
            rfl
          · by_cases hty : (f off).typeByte = 0
            · obtain ⟨n1, l1, h1⟩ := ih hone f
                (off + 8 + (gpmfComputedSize (f off).structSize (f off).rep - 8))
                ((off + 8 + (gpmfComputedSize (f off).structSize (f off).rep - 8))
                  - (off + 8)).toNat (off + 8) le_rfl
              refine ⟨max n1 n2 + 1, l1 ++ l2, ?_⟩
              simp only [gpmfLoop]
              rw [if_pos hlt]
              simp only [List.headD_cons, List.length_cons, List.tail_cons]
              rw [if_pos hkey,
                if_neg (fun hcon => hone (List.length_eq_zero.mp (by omega))),
                if_pos hty,
                gpmfLoop_mono n1 (max n1 n2) (le_max_left _ _) _ _ _ _ _ h1,
                gpmfLoop_mono n2 (max n1 n2) (le_max_right _ _) _ _ _ _ _ h2]
              rfl
            · refine ⟨n2 + 1, [] ++ l2, ?_⟩
              simp only [gpmfLoop]
              rw [if_pos hlt]
              simp only [List.headD_cons, List.length_cons, List.tail_cons]
              rw [if_pos hkey,
                if_neg (fun hcon => hone (List.length_eq_zero.mp (by omega))),
                if_neg hty, h2]
              rfl
        · refine ⟨n2 + 1, [] ++ l2, ?_⟩
          simp only [gpmfLoop]
          rw [if_pos hlt]
          simp only [List.headD_cons, List.length_cons, List.tail_cons]
          rw [if_neg hkey, h2]
          rfl
      · refine ⟨1, [], ?_⟩
        simp only [gpmfLoop]
        rw [if_neg hlt]

theorem boxLoop_total : ∀ (path : List String), path ≠ [] → ∀ (f : OuterFile),
    (∀ p : ℤ, 1 ≤ (f p).size) → ∀ (endP : ℤ) (d : ℕ) (off : ℤ), (endP - off).toNat ≤ d →
    ∃ n l, boxLoop n f off endP path = some l := by
  intro path
  induction path with
  | nil => intro h; exact absurd rfl h
  | cons k t ih =>
    intro _ f hpos endP d
    induction d with
    | zero =>
      intro off hoff
      refine ⟨1, [], ?_⟩
      simp only [boxLoop]
      rw [if_neg (by omega)]
    | succ d ihd =>
      intro off hoff
      by_cases hlt : off < endP
      · have hsz : (1:ℤ) ≤ ((f off).size : ℤ) := by exact_mod_cast hpos off
        obtain ⟨n2, l2, h2⟩ := ihd (off + ((f off).size : ℤ)) (by omega)
        by_cases hkey : (f off).key = k
        · by_cases hone : t = []
          · subst hone
            refine ⟨n2 + 1, [⟨(f off).key, off, ((f off).size : ℤ)⟩] ++ l2, ?_⟩
            simp only [boxLoop]
            rw [if_pos hlt]
            simp only [List.headD_cons, List.length_cons, List.tail_cons]
            rw [if_pos hkey, if_pos (by simp), h2]
            rfl
          · obtain ⟨n1, l1, h1⟩ := ih hone f hpos (off + 8 + (((f off).size : ℤ) - 8))
              ((off + 8 + (((f off).size : ℤ) - 8)) - (off + 8)).toNat (off + 8) le_rfl
            refine ⟨max n1 n2 + 1, l1 ++ l2, ?_⟩
            simp only [boxLoop]
            rw [if_pos hlt]
            simp only [List.headD_cons, List.length_cons, List.tail_cons]
            rw [if_pos hkey,
              if_neg (fun hcon => hone (List.length_eq_zero.mp (by omega))),
              boxLoop_mono n1 (max n1 n2) (le_max_left _ _) _ _ _ _ _ h1,
              boxLoop_mono n2 (max n1 n2) (le_max_right _ _) _ _ _ _ _ h2]
            rfl
        · refine ⟨n2 + 1, [] ++ l2, ?_⟩
          simp only [boxLoop]
          rw [if_pos hlt]
          simp only [List.headD_cons, List.length_cons, List.tail_cons]
          rw [if_neg hkey, h2]
          rfl
      · refine ⟨1, [], ?_⟩
        simp only [boxLoop]
        rw [if_neg hlt]

/-! ### Claim C8 -/

/-- C8: both navigators are sound with respect to the spec's notion of a box
satisfying the path: every box they return genuinely satisfies the searched
path within the bounded region.  Contrapositively, when no box in the region
satisfies the path the returned sequence can only be the empty one — path
absence is an empty result, never an error (the loop itself has no failure
outcome; `none` only models non-termination of the underlying `while` loop). -/
theorem c8_navigator_absence_is_empty :
    (∀ (n : ℕ) (f : OuterFile) (offset size : ℤ) (box_path : List String) (l : List Box)
        (b : Box), box_path ≠ [] → get_boxes n f offset size box_path = some l → b ∈ l →
        SatisfiesOuterPath f offset (offset + size) box_path b)
    ∧ (∀ (n : ℕ) (f : GpmfFile) (offset size : ℤ) (box_path : List String)
        (l : List GPMFBox) (b : GPMFBox), box_path ≠ [] →
        get_gpmf_boxes n f offset size box_path = some l → b ∈ l →
        SatisfiesGpmfPath f offset (offset + size) box_path b) :=
  ⟨fun n f offset size box_path l b hp h hb =>
      boxLoop_mem n f offset (offset + size) box_path l b hp h hb,
   fun n f offset size box_path l b hp h hb =>
      gpmfLoop_mem n f offset (offset + size) box_path l b hp h hb⟩

/-- Witness for C8 at a concrete one-box file for each navigator. -/
theorem c8_navigator_absence_is_empty_witness :
    SatisfiesOuterPath (fun _ => ⟨16, "moov"⟩) 0 (0 + 16) ["moov"] ⟨"moov", 0, 16⟩
    ∧ SatisfiesGpmfPath (fun _ => ⟨"DEVC", 0, 4, 2⟩) 0 (0 + 16) ["DEVC"]
        ⟨"DEVC", 0, 16, none, 4, 2⟩ :=
  ⟨c8_navigator_absence_is_empty.1 2 (fun _ => ⟨16, "moov"⟩) 0 16 ["moov"]
      [⟨"moov", 0, 16⟩] ⟨"moov", 0, 16⟩ (by decide) (by decide) (by decide),
   c8_navigator_absence_is_empty.2 2 (fun _ => ⟨"DEVC", 0, 4, 2⟩) 0 16 ["DEVC"]
      [⟨"DEVC", 0, 16, none, 4, 2⟩] ⟨"DEVC", 0, 16, none, 4, 2⟩ (by decide)
      (by with_unfolding_all decide) (by decide)⟩

/-! ### Claim C9 -/

/-- C9: for any element width and repeat count read from a GPMF header, the
computed aligned size `ceil((width*repeat + 8) / 4) * 4` is a multiple of 4 and
at least 8; consequently every telemetry box constructed by `get_gpmf_boxes`
carries such a size. -/
theorem c9_gpmf_size_alignment :
    (∀ structSize rep : ℕ,
        4 ∣ gpmfComputedSize structSize rep ∧ 8 ≤ gpmfComputedSize structSize rep)
    ∧ (∀ (n : ℕ) (f : GpmfFile) (offset size : ℤ) (box_path : List String)
        (l : List GPMFBox) (b : GPMFBox), box_path ≠ [] →
        get_gpmf_boxes n f offset size box_path = some l → b ∈ l →
        4 ∣ b.size ∧ 8 ≤ b.size) := by
  refine ⟨gpmfComputedSize_props, ?_⟩
  intro n f offset size box_path l b hp h hb
  obtain ⟨w, r, hw⟩ :=
    satisfiesGpmf_size (gpmfLoop_mem n f offset (offset + size) box_path l b hp h hb)
  rw [hw]
  exact gpmfComputedSize_props w r

/-- Witness for C9 at a concrete one-box GPMF payload. -/
theorem c9_gpmf_size_alignment_witness :
    4 ∣ (⟨"DEVC", 0, 16, none, 4, 2⟩ : GPMFBox).size
    ∧ 8 ≤ (⟨"DEVC", 0, 16, none, 4, 2⟩ : GPMFBox).size :=
  c9_gpmf_size_alignment.2 2 (fun _ => ⟨"DEVC", 0, 4, 2⟩) 0 16 ["DEVC"]
    [⟨"DEVC", 0, 16, none, 4, 2⟩] ⟨"DEVC", 0, 16, none, 4, 2⟩ (by decide)
    (by with_unfolding_all decide) (by decide)

/-! ### Claim C10 -/

/-- C10: `get_gpmf_boxes` terminates on every bounded region (for the
non-empty paths the callers pass), because every computed box size is at least
8, so the cursor strictly advances; `get_boxes` terminates whenever every
header declares a positive size, and when the header at the region's start
declares size 0 the cursor never moves and the loop never finishes — in the
fuel model, every fuel value is exhausted. -/
theorem c10_navigator_termination :
    (∀ (f : GpmfFile) (offset size : ℤ) (box_path : List String), box_path ≠ [] →
        ∃ n l, get_gpmf_boxes n f offset size box_path = some l)
    ∧ (∀ (f : OuterFile) (offset size : ℤ) (box_path : List String), box_path ≠ [] →
        (∀ p : ℤ, 1 ≤ (f p).size) → ∃ n l, get_boxes n f offset size box_path = some l)
    ∧ (∀ (f : OuterFile) (offset size : ℤ) (box_path : List String) (n : ℕ),
        (f offset).size = 0 → offset < offset + size →
        get_boxes n f offset size box_path = none) := by
  refine ⟨?_, ?_, ?_⟩
  · intro f offset size box_path hp
    exact gpmfLoop_total box_path hp f (offset + size) (offset + size - offset).toNat offset
      le_rfl
  · intro f offset size box_path hp hpos
    exact boxLoop_total box_path hp f hpos (offset + size) (offset + size - offset).toNat
      offset le_rfl
  · intro f offset size box_path n h0 hlt
    exact boxLoop_stuck n f offset (offset + size) box_path h0 hlt

/-- Witness for C10: a GPMF region and a positive-size outer region terminate;
an outer region whose first header declares size 0 loops forever. -/
theorem c10_navigator_termination_witness :
    (∃ n l, get_gpmf_boxes n (fun _ => ⟨"STRM", 65, 2, 4⟩) 0 32 ["ACCL"] = some l)
    ∧ (∃ n l, get_boxes n (fun _ => ⟨8, "mdat"⟩) 0 24 ["moov"] = some l)
    ∧ get_boxes 5 (fun _ => ⟨0, "free"⟩) 0 8 ["moov"] = none :=
  ⟨c10_navigator_termination.1 (fun _ => ⟨"STRM", 65, 2, 4⟩) 0 32 ["ACCL"] (by decide),
   c10_navigator_termination.2.1 (fun _ => ⟨8, "mdat"⟩) 0 24 ["moov"] (by decide)
      (fun _ => by norm_num),
   c10_navigator_termination.2.2 (fun _ => ⟨0, "free"⟩) 0 8 ["moov"] 5 (by decide)
      (by decide)⟩

end GPSync
